import Mathlib

/-!
# Verification of the PyVideoScraper filename-parsing engine

Shallow embedding of `src/core/parser.py` (`AnimeParser`) together with the
record type `AnimeMeta` from `src/core/types.py`.

The parser is a cascade of Python `re` patterns.  We embed the exact seven
compiled patterns as values of a small regex AST (`RE`) and run them with a
backtracking matcher (`mres`) that returns the full list of match states in
Python's backtracking priority order (lazy quantifiers try short repetitions
first, greedy ones long repetitions first, alternations are tried left to
right); the head of the list is the match Python's engine reports.  `re.search`
scanning, `re.sub` replacement and named-group capture are reproduced on top
of it.  Strings are handled as `List Char` (in Lean 4.14 a `String` wraps
exactly such a list).

Character classes are the ASCII readings of `\d`, `\s`, `\w`; all inputs the
program handles (release filenames) and all inputs used in the theorems below
stay inside that range apart from the full-width brackets `【`/`】`, which are
uncased and classless, so the readings agree with Python's on everything that
matters here.
-/

namespace PyVideoScraper

/-- Python `\s` (ASCII range): space, tab, newline, carriage return,
vertical tab, form feed. -/
def isSpaceP (c : Char) : Bool :=
  c = ' ' || c = '\t' || c = '\n' || c = '\r' || c = '\x0b' || c = '\x0c'

/-- Python `\d` (ASCII range). -/
def isDigitP (c : Char) : Bool :=
  '0' ≤ c && c ≤ '9'

/-- Python `\w` (ASCII range), used by the `\b` word-boundary assertion. -/
def isWordP (c : Char) : Bool :=
  isDigitP c || ('a' ≤ c && c ≤ 'z') || ('A' ≤ c && c ≤ 'Z') || c = '_'

/-- ASCII lower-casing, the effect of `re.IGNORECASE` / `str.lower` on the
ASCII letters appearing in the patterns. -/
def lowerP (c : Char) : Char :=
  if 'A' ≤ c && c ≤ 'Z' then Char.ofNat (c.toNat + 32) else c

/-- Case-insensitive character comparison (for patterns compiled with
`re.IGNORECASE`). -/
def ciEq (c d : Char) : Bool :=
  lowerP c = lowerP d

/-- `.` in a pattern without `re.DOTALL`: any character except a newline. -/
def notNl (c : Char) : Bool :=
  c ≠ '\n'

/-- The character class `[^\]]`. -/
def notRb (c : Char) : Bool :=
  c ≠ ']'

/-- The character class `[\s\.]` of the SxxExx strategy. -/
def spaceOrDot (c : Char) : Bool :=
  isSpaceP c || c = '.'

/-- Regex AST covering the constructs used by `AnimeParser`'s seven patterns.
Quantifiers only ever wrap single-character classes in those patterns, so
`rep` quantifies a character class directly: `lz` selects lazy (`*?`, `+?`,
`{m,n}?`) versus greedy order, `lo`/`hi` are the repetition bounds (`hi = none`
meaning unbounded).  `lit` is a literal character run, case-insensitive when
`ci` is true.  `group i r` is a capturing group with index `i`.  `eos` is `$`
(end of string, or just before a final newline) and `wordB` is `\b`. -/
inductive RE where
  | eps : RE
  | cls (p : Char → Bool) : RE
  | lit (ci : Bool) (s : List Char) : RE
  | seq (a b : RE) : RE
  | alt (a b : RE) : RE
  | rep (lz : Bool) (p : Char → Bool) (lo : Nat) (hi : Option Nat) : RE
  | group (i : Nat) (r : RE) : RE
  | eos : RE
  | wordB : RE

/-- Concatenation of a list of regexes. -/
def rcat (l : List RE) : RE :=
  l.foldr RE.seq RE.eps

/-- `(?:r)?` — greedy option: try `r` first, then the empty alternative. -/
def ropt (r : RE) : RE :=
  RE.alt r RE.eps

/-- A case-insensitive literal word. -/
def rlit (s : String) : RE :=
  RE.lit true s.data

/-- Captured groups: association list from group index to captured text;
`setCap` conses, `getCap` takes the most recent entry, so re-capturing a
group overwrites its old value, as in Python. -/
def Caps : Type := List (Nat × List Char)

/-- Record a capture for group `i`. -/
def setCap (i : Nat) (v : List Char) (caps : Caps) : Caps :=
  (i, v) :: caps

/-- Look up the (most recent) capture of group `i`; `none` when the group
did not participate in the match, like Python's `None` group value. -/
def getCap (i : Nat) (caps : Caps) : Option (List Char) :=
  match caps with
  | [] => none
  | (j, v) :: rest => if i = j then some v else getCap i rest

/-- A match state: the character just before the current position (for `\b`),
the remaining input, and the captures so far. -/
structure MSt where
  prev : Option Char
  rest : List Char
  caps : Caps

/-- Word-ness of an optional character (`none` = string edge, not a word). -/
def wordOpt (o : Option Char) : Bool :=
  match o with
  | some c => isWordP c
  | none => false

/-- Word-ness of the next character. -/
def headWord (l : List Char) : Bool :=
  match l with
  | [] => false
  | c :: _ => isWordP c

/-- Match a literal character run, returning the new previous-character and
remaining input on success. -/
def litMatch (ci : Bool) : List Char → Option Char → List Char →
    Option (Option Char × List Char)
  | [], p, r => some (p, r)
  | x :: xs, p, r =>
    match r with
    | [] => none
    | y :: ys =>
      if (if ci then ciEq x y else x = y) then litMatch ci xs (some y) ys
      else none

/-- Length of the maximal prefix of `l` whose characters satisfy `p`. -/
def runLen (p : Char → Bool) : List Char → Nat
  | [] => 0
  | x :: xs => if p x then runLen p xs + 1 else 0

/-- Cap a repetition count by the optional upper bound. -/
def capHi (hi : Option Nat) (n : Nat) : Nat :=
  match hi with
  | some h => min n h
  | none => n

/-- The previous character after consuming `k` characters of `r`
(the old previous character when `k = 0`). -/
def prevAt (k : Nat) (p : Option Char) (r : List Char) : Option Char :=
  if k = 0 then p else r.get? (k - 1)

/-- Candidate repetition counts between `lo` and `m`, in backtracking
priority order: ascending for lazy quantifiers, descending for greedy. -/
def repCounts (lz : Bool) (lo m : Nat) : List Nat :=
  if lo ≤ m then
    let l := List.range' lo (m + 1 - lo)
    if lz then l else l.reverse
  else []

/-- All match states of `r` against input `rest` (with `prev` the character
before the current position and `caps` the captures so far), in Python's
backtracking priority order; the head is the match Python reports. -/
def mres : RE → Option Char → List Char → Caps → List MSt
  | RE.eps, p, r, c => [⟨p, r, c⟩]
  | RE.cls t, p, r, c =>
    match r with
    | [] => []
    | x :: xs => if t x then [⟨some x, xs, c⟩] else []
  | RE.lit ci s, p, r, c =>
    match litMatch ci s p r with
    | some (p', r') => [⟨p', r', c⟩]
    | none => []
  | RE.seq a b, p, r, c =>
    (mres a p r c).flatMap (fun st => mres b st.prev st.rest st.caps)
  | RE.alt a b, p, r, c => mres a p r c ++ mres b p r c
  | RE.rep lz t lo hi, p, r, c =>
    (repCounts lz lo (capHi hi (runLen t r))).map
      (fun k => ⟨prevAt k p r, r.drop k, c⟩)
  | RE.group i g, p, r, c =>
    (mres g p r c).map
      (fun st => ⟨st.prev, st.rest, setCap i (r.take (r.length - st.rest.length)) st.caps⟩)
  | RE.eos, p, r, c => if r = [] || r = ['\n'] then [⟨p, r, c⟩] else []
  | RE.wordB, p, r, c => if wordOpt p != headWord r then [⟨p, r, c⟩] else []

/-- `re.search`: try to match at each position from left to right and return
the captures of the first (leftmost, highest-priority) match. -/
def reSearch (r : RE) (p : Option Char) (rest : List Char) : Option Caps :=
  match (mres r p rest []).head? with
  | some st => some st.caps
  | none =>
    match rest with
    | [] => none
    | x :: xs => reSearch r (some x) xs

/-- Match anchored at the start of the input (a pattern beginning with `^`,
outside `re.MULTILINE`, can only ever match at position 0). -/
def reMatchHead (r : RE) (s : List Char) : Option Caps :=
  ((mres r none s []).head?).map MSt.caps

/-- Fuelled scanning loop of `re.sub(pattern, '', s)`: delete the leftmost
match (which consumes at least one character for the patterns at hand) and
continue after it, else keep one character and move on.  The fuel only
serves structural termination; `rest.length` units always suffice. -/
def reSubAllF : Nat → RE → Option Char → List Char → List Char
  | 0, _, _, rest => rest
  | _ + 1, _, _, [] => []
  | fuel + 1, r, p, x :: xs =>
    match (mres r p (x :: xs) []).head? with
    | some st =>
      let k := (x :: xs).length - st.rest.length
      if k = 0 then x :: reSubAllF fuel r (some x) xs
      else reSubAllF fuel r (prevAt k p (x :: xs)) ((x :: xs).drop k)
    | none => x :: reSubAllF fuel r (some x) xs

/-- `re.sub(pattern, '', s)` for the cleaning patterns: scan left to right,
delete each leftmost non-overlapping match, and continue after it. -/
def reSubAll (r : RE) (p : Option Char) (rest : List Char) : List Char :=
  reSubAllF rest.length r p rest

/-! ## The compiled patterns of `AnimeParser.__init__`

Group indices: 0 = `group`, 1 = `title`, 2 = `season`, 3 = `season_raw`,
4 = `episode`.  For `re_season_text` the indices 1, 2, 3 are the pattern's
own positional groups 1, 2, 3. -/

/-- `(?:-|–)` — an ASCII dash or an en dash. -/
def dashSep : RE :=
  RE.alt (RE.lit false ['-']) (RE.lit false ['–'])

/-- The episode group body of the dash strategy: `\d{1,4}(?:\.\d)?`. -/
def epBodyDash : RE :=
  RE.seq (RE.rep false isDigitP 1 (some 4))
    (ropt (RE.seq (RE.lit false ['.']) (RE.cls isDigitP)))

/-- The episode group body of the other strategies: `\d{1,3}`. -/
def epBodyShort : RE :=
  RE.rep false isDigitP 1 (some 3)

/-- Strategy 1, `re_strategy_dash` (IGNORECASE, anchored by `^`):
`^.*?\]\s*(?P<title>.+?)\s*(?:-|–)\s*(?:S(?P<season>\d{1,2})\s*(?:-|–)?\s*)?(?P<episode>\d{1,4}(?:\.\d)?)(?:v\d)?(?:\s|\[|\(|$)` -/
def reStrategyDash : RE :=
  rcat [
    RE.rep true notNl 0 none,
    RE.lit false [']'],
    RE.rep false isSpaceP 0 none,
    RE.group 1 (RE.rep true notNl 1 none),
    RE.rep false isSpaceP 0 none,
    dashSep,
    RE.rep false isSpaceP 0 none,
    ropt (rcat [
      RE.lit true ['S'],
      RE.group 2 (RE.rep false isDigitP 1 (some 2)),
      RE.rep false isSpaceP 0 none,
      ropt dashSep,
      RE.rep false isSpaceP 0 none]),
    RE.group 4 epBodyDash,
    ropt (RE.seq (RE.lit true ['v']) (RE.cls isDigitP)),
    RE.alt (RE.cls isSpaceP)
      (RE.alt (RE.lit false ['[']) (RE.alt (RE.lit false ['(']) RE.eos))]

/-- Strategy 2, `re_strategy_se` (IGNORECASE, unanchored):
`(?P<title>.*?)[\s\.]S(?P<season>\d{1,2})E(?P<episode>\d{1,3})` -/
def reStrategySE : RE :=
  rcat [
    RE.group 1 (RE.rep true notNl 0 none),
    RE.cls spaceOrDot,
    RE.lit true ['S'],
    RE.group 2 (RE.rep false isDigitP 1 (some 2)),
    RE.lit true ['E'],
    RE.group 4 epBodyShort]

/-- Strategy 3, `re_strategy_brackets` (IGNORECASE, anchored by `^`):
`^\[(?P<group>[^\]]+)\]\[(?P<title>[^\]]+)\](?:\[(?P<season_raw>S\d+|Season\s*\d+|part\s*\d+|[^\]]*?Season)\])?\[(?P<episode>\d{1,3})\]` -/
def reStrategyBrackets : RE :=
  rcat [
    RE.lit false ['['],
    RE.group 0 (RE.rep false notRb 1 none),
    RE.lit false [']'],
    RE.lit false ['['],
    RE.group 1 (RE.rep false notRb 1 none),
    RE.lit false [']'],
    ropt (rcat [
      RE.lit false ['['],
      RE.group 3 (RE.alt
        (RE.seq (RE.lit true ['S']) (RE.rep false isDigitP 1 none))
        (RE.alt
          (rcat [rlit "Season", RE.rep false isSpaceP 0 none,
                 RE.rep false isDigitP 1 none])
          (RE.alt
            (rcat [rlit "part", RE.rep false isSpaceP 0 none,
                   RE.rep false isDigitP 1 none])
            (RE.seq (RE.rep true notRb 0 none) (rlit "Season"))))),
      RE.lit false [']']]),
    RE.lit false ['['],
    RE.group 4 epBodyShort,
    RE.lit false [']']]

/-- Strategy 4, `re_strategy_simple` (IGNORECASE, unanchored):
`(?P<title>.+?)\s+(?P<episode>\d{1,3})(?:v\d)?(?:\.mp4|\.mkv)$` -/
def reStrategySimple : RE :=
  rcat [
    RE.group 1 (RE.rep true notNl 1 none),
    RE.rep false isSpaceP 1 none,
    RE.group 4 epBodyShort,
    ropt (RE.seq (RE.lit true ['v']) (RE.cls isDigitP)),
    RE.alt (rlit ".mp4") (rlit ".mkv"),
    RE.eos]

/-- `re_season_text` (inline `(?i)`, unanchored):
`(?:season|part)\s*(\d{1,2})|S(\d{1,2})\b|(\d{1,2})(?:nd|rd|th)\s+season` -/
def reSeasonText : RE :=
  RE.alt
    (rcat [RE.alt (rlit "season") (rlit "part"),
           RE.rep false isSpaceP 0 none,
           RE.group 1 (RE.rep false isDigitP 1 (some 2))])
    (RE.alt
      (rcat [RE.lit true ['S'],
             RE.group 2 (RE.rep false isDigitP 1 (some 2)),
             RE.wordB])
      (rcat [RE.group 3 (RE.rep false isDigitP 1 (some 2)),
             RE.alt (rlit "nd") (RE.alt (rlit "rd") (rlit "th")),
             RE.rep false isSpaceP 1 none,
             rlit "season"]))

/-- `re_clean_season` (inline `(?i)`, unanchored):
`\s+(?:2nd|3rd|4th|final|first)?\s*(?:season|part)\s*\d*|\s+S\d+\b` -/
def reCleanSeason : RE :=
  RE.alt
    (rcat [RE.rep false isSpaceP 1 none,
           ropt (RE.alt (rlit "2nd") (RE.alt (rlit "3rd")
             (RE.alt (rlit "4th") (RE.alt (rlit "final") (rlit "first"))))),
           RE.rep false isSpaceP 0 none,
           RE.alt (rlit "season") (rlit "part"),
           RE.rep false isSpaceP 0 none,
           RE.rep false isDigitP 0 none])
    (rcat [RE.rep false isSpaceP 1 none,
           RE.lit true ['S'],
           RE.rep false isDigitP 1 none,
           RE.wordB])

/-- The year pattern of `_clean_title`: `\s\(\d{4}\)`. -/
def reYear : RE :=
  rcat [RE.cls isSpaceP,
        RE.lit false ['('],
        RE.rep false isDigitP 4 (some 4),
        RE.lit false [')']]

/-- The leading-group pattern of `_clean_title`: `^\[.*?\]\s*` (anchored,
so `re.sub` can only ever delete a prefix of the string). -/
def reLeadBracket : RE :=
  rcat [RE.lit false ['['],
        RE.rep true notNl 0 none,
        RE.lit false [']'],
        RE.rep false isSpaceP 0 none]

/-! ## The parsing pipeline of `AnimeParser.parse` -/

/-- `re.sub` of the anchored pattern `^\[.*?\]\s*` with replacement `''`:
delete the position-0 match if there is one. -/
def subLeading (r : RE) (s : List Char) : List Char :=
  match (mres r none s []).head? with
  | some st => st.rest
  | none => s

/-- `int(s)` on a run of decimal digits. -/
def natOfDigits (s : List Char) : Nat :=
  s.foldl (fun a c => a * 10 + (c.toNat - 48)) 0

/-- `re.findall(r'\d+', s)[0]`: the first maximal run of digits, if any. -/
def firstDigitRun : List Char → Option (List Char)
  | [] => none
  | c :: cs =>
    if isDigitP c then some (c :: cs.takeWhile isDigitP)
    else firstDigitRun cs

/-- `str.lower` (ASCII letters). -/
def lowerAll (s : List Char) : List Char :=
  s.map lowerP

/-- `str.strip()`: trim whitespace from both ends. -/
def pyStrip (s : List Char) : List Char :=
  ((s.dropWhile isSpaceP).reverse.dropWhile isSpaceP).reverse

/-- `all(ord(c) < 128 for c in s)`. -/
def allAscii (s : List Char) : Bool :=
  s.all (fun c => c.toNat < 128)

/-- What `match.groupdict()` gives `parse` after a strategy matched: the
captures of the four named groups the code reads (a group that is absent
from the winning pattern, exactly like one that did not participate,
reads as `None`). -/
structure StratData where
  title : Option (List Char)
  season : Option (List Char)
  season_raw : Option (List Char)
  episode : Option (List Char)

/-- Build the `groupdict` view from the captures of a match. -/
def dataOfCaps (caps : Caps) : StratData :=
  ⟨getCap 1 caps, getCap 2 caps, getCap 3 caps, getCap 4 caps⟩

/-- Python truthiness of `data.get(key)`: a string is truthy iff non-empty,
a missing key (`None`) is falsy. -/
def optTruthy (o : Option (List Char)) : Bool :=
  match o with
  | some s => !s.isEmpty
  | none => false

/-- `for g in match.groups(): if g: return ...` — the first truthy group
among the given indices. -/
def firstTruthy (caps : Caps) : List Nat → Option (List Char)
  | [] => none
  | i :: is =>
    match getCap i caps with
    | some g => if g.isEmpty then firstTruthy caps is else some g
    | none => firstTruthy caps is

/-- `AnimeParser._extract_season_from_text`: search `re_season_text` in the
text and return `int(g)` for the first truthy positional group. -/
def extractSeasonFromText (text : List Char) : Option Nat :=
  match reSearch reSeasonText none text with
  | some caps => (firstTruthy caps [1, 2, 3]).map natOfDigits
  | none => none

/-- `raw_title = data.get('title', '').strip()`. -/
def rawTitleOf (sd : StratData) : List Char :=
  pyStrip (sd.title.getD [])

/-- Steps A and B of the season logic of `AnimeParser.parse`: start from the
default 1, overwrite with `int(data['season'])` when the `season` capture is
truthy, else with the first digit run of the lower-cased `season_raw` when
that capture is truthy (keeping 1 when it contains no digits). -/
def seasonFromCaptures (sd : StratData) : Nat :=
  if optTruthy sd.season then natOfDigits (sd.season.getD [])
  else if optTruthy sd.season_raw then
    match firstDigitRun (lowerAll (sd.season_raw.getD [])) with
    | some ds => natOfDigits ds
    | none => 1
  else 1

/-- The full season resolution (steps A, B, C): after the capture-based
value, whenever it is still exactly 1, mine the stripped raw title text and
accept the mined value only when it is truthy (nonzero). -/
def resolveSeason (sd : StratData) : Nat :=
  let s1 := seasonFromCaptures sd
  if s1 = 1 then
    match extractSeasonFromText (rawTitleOf sd) with
    | some n => if n ≠ 0 then n else s1
    | none => s1
  else s1

/-- The integer part of a decimal literal (the digits before the `.`). -/
def decimalIntPart (s : List Char) : List Char :=
  s.takeWhile (fun c => c ≠ '.')

/-- `episode = float(episode_val) if episode_val else 0.0` followed by
`int(episode)`: the missing or empty capture gives 0; otherwise the decimal
string is truncated toward zero, which for these non-negative captures is
the value of the digits before the dot.  (The captures are at most four
digits plus one fractional digit, so the `float` round trip is exact as far
as the truncated value is concerned.) -/
def episodeNat (v : Option (List Char)) : Nat :=
  match v with
  | some s => if s.isEmpty then 0 else natOfDigits (decimalIntPart s)
  | none => 0

/-- The exact rational value of a decimal literal `digits[.digits]`,
used to state that `episodeNat` is truncation toward zero. -/
def decimalValQ (s : List Char) : ℚ :=
  let ip := s.takeWhile (fun c => c ≠ '.')
  let fp := (s.dropWhile (fun c => c ≠ '.')).drop 1
  (natOfDigits ip : ℚ) + (natOfDigits fp : ℚ) / (10 : ℚ) ^ fp.length

/-- `'_' in text` then `text.split('_')` handling of `_clean_title`:
keep the last underscore-separated part when it is pure ASCII (ignoring
surrounding whitespace and inner spaces), else the first part. -/
def underscoreStep (t : List Char) : List Char :=
  if t.contains '_' then
    let parts := t.splitOn '_'
    if decide (parts.length > 1) &&
        allAscii ((pyStrip (parts.getLast?.getD [])).filter (fun c => c ≠ ' ')) then
      parts.getLast?.getD []
    else parts.head?.getD []
  else t

/-- `AnimeParser._clean_title`: strip one leading `[...]` group, delete
`re_clean_season` matches, delete `\s\(\d{4}\)` year annotations, apply the
bilingual underscore rule, and trim. -/
def cleanTitle (text : List Char) : List Char :=
  let t1 := subLeading reLeadBracket text
  let t2 := reSubAll reCleanSeason none t1
  let t3 := reSubAll reYear none t2
  pyStrip (underscoreStep t3)

/-- The preprocessing substitution `re_replace_brackets.sub`: replace each
full-width bracket `【`/`】` by `[`/`]`. -/
def preprocess (s : List Char) : List Char :=
  s.map (fun c => if c = '【' then '[' else if c = '】' then ']' else c)

/-- Strategy 1 as used by `parse`: `re_strategy_dash.search` (the pattern is
anchored by `^`, so searching equals matching at position 0). -/
def strategyDash (s : List Char) : Option Caps :=
  reMatchHead reStrategyDash s

/-- Strategy 2 as used by `parse`: `re_strategy_se.search`. -/
def strategySE (s : List Char) : Option Caps :=
  reSearch reStrategySE none s

/-- Strategy 3 as used by `parse`: `re_strategy_brackets.search` (anchored). -/
def strategyBrackets (s : List Char) : Option Caps :=
  reMatchHead reStrategyBrackets s

/-- Strategy 4 as used by `parse`: `re_strategy_simple.search`. -/
def strategySimple (s : List Char) : Option Caps :=
  reSearch reStrategySimple none s

/-- The four strategies in the priority order of `AnimeParser.parse`. -/
def strategies : List (List Char → Option Caps) :=
  [strategyDash, strategySE, strategyBrackets, strategySimple]

/-- `AnimeMeta` from `src/core/types.py` (the fields `parse` fills in). -/
structure AnimeMeta where
  title : String
  season : Nat
  episode : Nat
  raw_filename : String
deriving DecidableEq, Repr

/-- Steps 3–4 of `AnimeParser.parse`: from the winning match's captures and
the (preprocessed) filename, build the returned record. -/
def buildMeta (fn : List Char) (caps : Caps) : AnimeMeta :=
  let sd := dataOfCaps caps
  { title := String.mk (cleanTitle (rawTitleOf sd))
    season := resolveSeason sd
    episode := episodeNat sd.episode
    raw_filename := String.mk fn }

/-- `AnimeParser.parse`, the single entry point: preprocess the brackets,
try the four strategies in order (`if not match: ...` chain), return `None`
when all fail, else the record built from the first match. -/
def parse (filename : String) : Option AnimeMeta :=
  let fn := preprocess filename.data
  let m : Option Caps :=
    match strategyDash fn with
    | some c => some c
    | none =>
      match strategySE fn with
      | some c => some c
      | none =>
        match strategyBrackets fn with
        | some c => some c
        | none => strategySimple fn
  match m with
  | none => none
  | some caps => some (buildMeta fn caps)

/-- The chain of the four `if not match:` attempts as one function: the
first strategy (in priority order) whose pattern matches supplies the
captures. -/
def winningCaps (fn : List Char) : Option Caps :=
  strategies.findSome? (fun g => g fn)

/-- Shape of every episode capture any strategy can produce: a non-empty
run of at most four digits, optionally followed by a dot and one more
digit. -/
def EpShape (s : List Char) : Prop :=
  ∃ ds fs, s = ds ++ fs ∧ ds ≠ [] ∧ ds.length ≤ 4 ∧
    (∀ c ∈ ds, isDigitP c = true) ∧
    (fs = [] ∨ ∃ d, isDigitP d = true ∧ fs = ['.', d])

/-- Shape of a Python decimal literal `digits[.digits]` with a non-empty
integer part, as consumed by `float`. -/
def DecimalShape (s : List Char) : Prop :=
  ∃ ds fs, (s = ds ++ '.' :: fs ∨ (s = ds ∧ fs = [])) ∧ ds ≠ [] ∧
    (∀ c ∈ ds, isDigitP c = true) ∧ (∀ c ∈ fs, isDigitP c = true)

/-- All captures of group `i` recorded in `caps` satisfy `P`. -/
def capsGood (i : Nat) (P : List Char → Prop) (caps : Caps) : Prop :=
  ∀ s, getCap i caps = some s → P s

/-- Discipline of group writes: `SafeFor i P r` says every substring that
`r` can ever record as the capture of group `i` satisfies `P`. -/
inductive SafeFor (i : Nat) (P : List Char → Prop) : RE → Prop where
  | eps : SafeFor i P RE.eps
  | cls (t : Char → Bool) : SafeFor i P (RE.cls t)
  | lit (ci : Bool) (s : List Char) : SafeFor i P (RE.lit ci s)
  | rep (lz : Bool) (t : Char → Bool) (lo : Nat) (hi : Option Nat) :
      SafeFor i P (RE.rep lz t lo hi)
  | eos : SafeFor i P RE.eos
  | wordB : SafeFor i P RE.wordB
  | seq {a b : RE} (ha : SafeFor i P a) (hb : SafeFor i P b) :
      SafeFor i P (RE.seq a b)
  | alt {a b : RE} (ha : SafeFor i P a) (hb : SafeFor i P b) :
      SafeFor i P (RE.alt a b)
  | groupOther {j : Nat} {g : RE} (hij : j ≠ i) (hg : SafeFor i P g) :
      SafeFor i P (RE.group j g)
  | groupSelf {g : RE}
      (hcons : ∀ p rest caps st, st ∈ mres g p rest caps →
        P (rest.take (rest.length - st.rest.length)))
      (hg : SafeFor i P g) :
      SafeFor i P (RE.group i g)

/-! ## Helper lemmas -/

theorem digit_le_nine {c : Char} (h : isDigitP c = true) : c.toNat - 48 ≤ 9 := by
  simp only [isDigitP, Bool.and_eq_true, decide_eq_true_eq] at h
  obtain ⟨h1, h2⟩ := h
  rw [Char.le_def] at h1 h2
  have g1 : (48 : Nat) ≤ c.toNat := h1
  have g2 : c.toNat ≤ 57 := h2
  omega

theorem digit_ne_dot {c : Char} (h : isDigitP c = true) : c ≠ '.' := by
  rintro rfl
  simp only [isDigitP, Bool.and_eq_true, decide_eq_true_eq] at h
  exact absurd h.1 (by decide)

theorem natOfDigits_foldl_lt (l : List Char) (h : ∀ c ∈ l, isDigitP c = true) :
    ∀ acc, l.foldl (fun a c => a * 10 + (c.toNat - 48)) acc <
      (acc + 1) * 10 ^ l.length := by
  induction l with
  | nil => intro acc; simp
  | cons c cs ih =>
    intro acc
    simp only [List.foldl_cons, List.length_cons]
    have hd : c.toNat - 48 ≤ 9 := digit_le_nine (h c (by simp))
    have hrec := ih (fun x hx => h x (by simp [hx])) (acc * 10 + (c.toNat - 48))
    have hstep : (acc * 10 + (c.toNat - 48) + 1) * 10 ^ cs.length ≤
        (acc + 1) * 10 ^ (cs.length + 1) := by
      rw [pow_succ]
      calc (acc * 10 + (c.toNat - 48) + 1) * 10 ^ cs.length
          ≤ ((acc + 1) * 10) * 10 ^ cs.length :=
            Nat.mul_le_mul_right _ (by omega)
        _ = (acc + 1) * (10 ^ cs.length * 10) := by ring
    exact lt_of_lt_of_le hrec hstep

theorem natOfDigits_lt (l : List Char) (h : ∀ c ∈ l, isDigitP c = true) :
    natOfDigits l < 10 ^ l.length := by
  have := natOfDigits_foldl_lt l h 0
  simpa [natOfDigits] using this

theorem getCap_setCap_self (i : Nat) (v : List Char) (caps : Caps) :
    getCap i (setCap i v caps) = some v := by
  simp [getCap, setCap]

theorem getCap_setCap_ne (i j : Nat) (v : List Char) (caps : Caps)
    (h : i ≠ j) : getCap i (setCap j v caps) = getCap i caps := by
  simp [getCap, setCap, h]

theorem getCap_nil (i : Nat) : getCap i ([] : Caps) = none := rfl

/-- `parse` is exactly the first-hit chain over the ordered strategy list. -/
theorem parse_eq_chain (f : String) :
    parse f = (winningCaps (preprocess f.data)).map (buildMeta (preprocess f.data)) := by
  unfold parse winningCaps strategies
  cases h1 : strategyDash (preprocess f.data) <;>
    cases h2 : strategySE (preprocess f.data) <;>
      cases h3 : strategyBrackets (preprocess f.data) <;>
        cases h4 : strategySimple (preprocess f.data) <;>
          simp [h1, h2, h3, h4, List.findSome?]

theorem preprocess_id (s : List Char) (h : ∀ c ∈ s, c ≠ '【' ∧ c ≠ '】') :
    preprocess s = s := by
  unfold preprocess
  induction s with
  | nil => rfl
  | cons c cs ih =>
    have hc := h c (by simp)
    simp only [List.map_cons, List.cons.injEq]
    refine ⟨by simp [hc.1, hc.2], ih (fun x hx => h x (by simp [hx]))⟩

theorem string_mk_data (f : String) : String.mk f.data = f := rfl

/-! ## Engine lemmas -/

theorem repCounts_mem {lz : Bool} {lo m k : Nat} (h : k ∈ repCounts lz lo m) :
    lo ≤ k ∧ k ≤ m := by
  unfold repCounts at h
  split at h
  · split at h
    · rw [List.mem_range'_1] at h; omega
    · rw [List.mem_reverse, List.mem_range'_1] at h; omega
  · simp at h

theorem mres_rep_mem {lz : Bool} {t : Char → Bool} {lo : Nat} {hi : Option Nat}
    {p : Option Char} {rest : List Char} {caps : Caps} {st : MSt}
    (h : st ∈ mres (RE.rep lz t lo hi) p rest caps) :
    ∃ k, lo ≤ k ∧ k ≤ capHi hi (runLen t rest) ∧
      st = ⟨prevAt k p rest, rest.drop k, caps⟩ := by
  simp only [mres, List.mem_map] at h
  obtain ⟨k, hk, rfl⟩ := h
  obtain ⟨h1, h2⟩ := repCounts_mem hk
  exact ⟨k, h1, h2, rfl⟩

theorem runLen_le_length (t : Char → Bool) (l : List Char) :
    runLen t l ≤ l.length := by
  induction l with
  | nil => simp [runLen]
  | cons c cs ih =>
    unfold runLen
    split <;> simp <;> omega

theorem runLen_take (t : Char → Bool) (l : List Char) :
    ∀ k, k ≤ runLen t l → ∀ c ∈ l.take k, t c = true := by
  induction l with
  | nil => intro k _ c hc; simp at hc
  | cons x xs ih =>
    intro k hk c hc
    unfold runLen at hk
    split at hk
    · cases k with
      | zero => simp at hc
      | succ k' =>
        simp only [List.take_succ_cons, List.mem_cons] at hc
        rcases hc with rfl | hc
        · assumption
        · exact ih k' (by omega) c hc
    · have : k = 0 := by omega
      subst this; simp at hc

theorem mres_caps_good {i : Nat} {P : List Char → Prop} :
    ∀ (r : RE) (p : Option Char) (rest : List Char) (caps : Caps),
      SafeFor i P r → capsGood i P caps →
      ∀ st ∈ mres r p rest caps, capsGood i P st.caps := by
  intro r
  induction r with
  | eps =>
    intro p rest caps _ hc st hst
    simp only [mres, List.mem_singleton] at hst
    subst hst; exact hc
  | cls t =>
    intro p rest caps _ hc st hst
    cases rest with
    | nil => simp [mres] at hst
    | cons x xs =>
      by_cases ht : t x
      · simp only [mres, ht, if_pos, List.mem_singleton] at hst
        subst hst; exact hc
      · simp [mres, ht] at hst
  | lit ci s =>
    intro p rest caps _ hc st hst
    cases hl : litMatch ci s p rest with
    | some pr =>
      simp only [mres, hl, List.mem_singleton] at hst
      subst hst; exact hc
    | none => simp [mres, hl] at hst
  | seq a b iha ihb =>
    intro p rest caps hsafe hc st hst
    cases hsafe with
    | seq ha hb =>
      simp only [mres, List.mem_flatMap] at hst
      obtain ⟨st1, h1, h2⟩ := hst
      exact ihb st1.prev st1.rest st1.caps hb
        (iha p rest caps ha hc st1 h1) st h2
  | alt a b iha ihb =>
    intro p rest caps hsafe hc st hst
    cases hsafe with
    | alt ha hb =>
      simp only [mres, List.mem_append] at hst
      rcases hst with h | h
      · exact iha p rest caps ha hc st h
      · exact ihb p rest caps hb hc st h
  | rep lz t lo hi =>
    intro p rest caps _ hc st hst
    obtain ⟨k, _, _, rfl⟩ := mres_rep_mem hst
    exact hc
  | group j g ihg =>
    intro p rest caps hsafe hc st hst
    simp only [mres, List.mem_map] at hst
    obtain ⟨st1, h1, rfl⟩ := hst
    cases hsafe with
    | groupOther hij hg =>
      intro s hs
      rw [getCap_setCap_ne _ _ _ _ (Ne.symm hij)] at hs
      exact ihg p rest caps hg hc st1 h1 s hs
    | groupSelf hcons hg =>
      intro s hs
      rw [getCap_setCap_self] at hs
      cases hs
      exact hcons p rest caps st1 h1
  | eos =>
    intro p rest caps _ hc st hst
    by_cases he : (rest = [] || rest = ['\n']) = true
    · simp only [mres, he, if_pos, List.mem_singleton] at hst
      subst hst; exact hc
    · simp [mres, he] at hst
  | wordB =>
    intro p rest caps _ hc st hst
    by_cases he : (wordOpt p != headWord rest) = true
    · simp only [mres, he, if_pos, List.mem_singleton] at hst
      subst hst; exact hc
    · simp [mres, he] at hst

theorem reMatchHead_mem {r : RE} {s : List Char} {caps : Caps}
    (h : reMatchHead r s = some caps) :
    ∃ st, st ∈ mres r none s [] ∧ caps = st.caps := by
  unfold reMatchHead at h
  obtain ⟨st, h1, h2⟩ := Option.map_eq_some'.mp h
  exact ⟨st, List.mem_of_mem_head? (Option.mem_def.mpr h1), h2.symm⟩

theorem reSearch_mem {r : RE} : ∀ (rest : List Char) (p : Option Char)
    (caps : Caps), reSearch r p rest = some caps →
    ∃ p' rest' st, st ∈ mres r p' rest' [] ∧ caps = st.caps := by
  intro rest
  induction rest with
  | nil =>
    intro p caps h
    rw [reSearch] at h
    cases hh : (mres r p [] []).head? with
    | some st =>
      rw [hh] at h
      exact ⟨p, [], st, List.mem_of_mem_head? (Option.mem_def.mpr hh),
        (Option.some.inj h).symm⟩
    | none => rw [hh] at h; simp at h
  | cons x xs ih =>
    intro p caps h
    rw [reSearch] at h
    cases hh : (mres r p (x :: xs) []).head? with
    | some st =>
      rw [hh] at h
      exact ⟨p, x :: xs, st, List.mem_of_mem_head? (Option.mem_def.mpr hh),
        (Option.some.inj h).symm⟩
    | none => rw [hh] at h; exact ih (some x) caps h

/-- A pure digit run of between 1 and `hi ≤ 4` characters is an episode
capture shape. -/
theorem epShape_take {t : List Char} {k : Nat} (hk1 : 1 ≤ k)
    (hk4 : k ≤ 4) (hrun : k ≤ runLen isDigitP t) :
    EpShape (t.take k) := by
  have hlen : k ≤ t.length := le_trans hrun (runLen_le_length _ _)
  refine ⟨t.take k, [], by simp, ?_, ?_, ?_, Or.inl rfl⟩
  · have : (t.take k).length = k := by
      rw [List.length_take]; omega
    intro hnil
    rw [hnil] at this
    simp at this
    omega
  · rw [List.length_take]; omega
  · exact runLen_take _ _ _ hrun

/-- Anything the body `\d{1,3}` of the short episode groups consumes has
the episode capture shape. -/
theorem epBodyShort_consumed : ∀ (p : Option Char) (rest : List Char)
    (caps : Caps) (st : MSt), st ∈ mres epBodyShort p rest caps →
    EpShape (rest.take (rest.length - st.rest.length)) := by
  intro p rest caps st hst
  unfold epBodyShort at hst
  obtain ⟨k, hk1, hk2, rfl⟩ := mres_rep_mem hst
  simp only [capHi] at hk2
  have hk2' := le_min_iff.mp hk2
  have hlen : k ≤ rest.length :=
    le_trans hk2'.1 (runLen_le_length _ _)
  simp only [List.length_drop]
  have hc : rest.length - (rest.length - k) = k := by omega
  rw [hc]
  exact epShape_take hk1 (by omega) hk2'.1

/-- Anything the body `\d{1,4}(?:\.\d)?` of the dash strategy's episode
group consumes has the episode capture shape. -/
theorem epBodyDash_consumed : ∀ (p : Option Char) (rest : List Char)
    (caps : Caps) (st : MSt), st ∈ mres epBodyDash p rest caps →
    EpShape (rest.take (rest.length - st.rest.length)) := by
  intro p rest caps st hst
  unfold epBodyDash at hst
  simp only [mres, List.mem_flatMap] at hst
  obtain ⟨st1, h1, h2⟩ := hst
  obtain ⟨k, hk1, hk2, rfl⟩ := mres_rep_mem h1
  simp only [capHi] at hk2
  have hk2' := le_min_iff.mp hk2
  have hlen : k ≤ rest.length :=
    le_trans hk2'.1 (runLen_le_length _ _)
  simp only [ropt, mres, List.mem_append] at h2
  rcases h2 with h2 | h2
  · -- the fractional part `\.\d` participates
    simp only [List.mem_flatMap] at h2
    obtain ⟨st2, hl, hcl⟩ := h2
    cases hd : rest.drop k with
    | nil => rw [hd] at hl; simp [mres, litMatch] at hl
    | cons y ys =>
      rw [hd] at hl
      by_cases hy : ('.' : Char) = y
      · subst hy
        simp [mres, litMatch] at hl
        subst hl
        cases ys with
        | nil => simp [mres] at hcl
        | cons d ds' =>
          by_cases hdig : isDigitP d
          · simp only [mres, hdig, if_pos, List.mem_singleton] at hcl
            subst hcl
            have hlen2 : (rest.drop k).length = ds'.length + 2 := by
              rw [hd]; simp
            rw [List.length_drop] at hlen2
            have hcount : rest.length - ds'.length = k + 2 := by omega
            rw [hcount, List.take_add, hd]
            refine ⟨rest.take k, ['.', d], by simp, ?_, ?_, ?_, ?_⟩
            · have : (rest.take k).length = k := by
                rw [List.length_take]; omega
              intro hnil
              rw [hnil] at this
              simp at this
              omega
            · rw [List.length_take]; omega
            · exact runLen_take _ _ _ hk2'.1
            · exact Or.inr ⟨d, hdig, rfl⟩
          · simp [mres, hdig] at hcl
      · simp [mres, litMatch, hy] at hl
  · -- the empty alternative of `(?:\.\d)?`
    simp only [mres, List.mem_singleton] at h2
    subst h2
    simp only [List.length_drop]
    have hc : rest.length - (rest.length - k) = k := by omega
    rw [hc]
    exact epShape_take hk1 hk2'.2 hk2'.1

theorem safeFor_rcat {i : Nat} {P : List Char → Prop} :
    ∀ (l : List RE), (∀ x ∈ l, SafeFor i P x) → SafeFor i P (rcat l) := by
  intro l
  induction l with
  | nil => intro _; exact SafeFor.eps
  | cons a as ih =>
    intro h
    exact SafeFor.seq (h a (by simp)) (ih (fun x hx => h x (by simp [hx])))

theorem safeFor_dash : SafeFor 4 EpShape reStrategyDash := by
  unfold reStrategyDash
  apply safeFor_rcat
  intro x hx
  fin_cases hx
  · exact SafeFor.rep _ _ _ _
  · exact SafeFor.lit _ _
  · exact SafeFor.rep _ _ _ _
  · exact SafeFor.groupOther (by decide) (SafeFor.rep _ _ _ _)
  · exact SafeFor.rep _ _ _ _
  · exact SafeFor.alt (SafeFor.lit _ _) (SafeFor.lit _ _)
  · exact SafeFor.rep _ _ _ _
  · refine SafeFor.alt (safeFor_rcat _ ?_) SafeFor.eps
    intro y hy
    fin_cases hy
    · exact SafeFor.lit _ _
    · exact SafeFor.groupOther (by decide) (SafeFor.rep _ _ _ _)
    · exact SafeFor.rep _ _ _ _
    · exact SafeFor.alt (SafeFor.alt (SafeFor.lit _ _) (SafeFor.lit _ _))
        SafeFor.eps
    · exact SafeFor.rep _ _ _ _
  · exact SafeFor.groupSelf epBodyDash_consumed
      (by unfold epBodyDash ropt
          exact SafeFor.seq (SafeFor.rep _ _ _ _)
            (SafeFor.alt (SafeFor.seq (SafeFor.lit _ _) (SafeFor.cls _))
              SafeFor.eps))
  · exact SafeFor.alt (SafeFor.seq (SafeFor.lit _ _) (SafeFor.cls _))
      SafeFor.eps
  · exact SafeFor.alt (SafeFor.cls _)
      (SafeFor.alt (SafeFor.lit _ _)
        (SafeFor.alt (SafeFor.lit _ _) SafeFor.eos))

theorem safeFor_epBodyShort : SafeFor 4 EpShape (RE.group 4 epBodyShort) :=
  SafeFor.groupSelf epBodyShort_consumed
    (by unfold epBodyShort; exact SafeFor.rep _ _ _ _)

theorem safeFor_se : SafeFor 4 EpShape reStrategySE := by
  unfold reStrategySE
  apply safeFor_rcat
  intro x hx
  fin_cases hx
  · exact SafeFor.groupOther (by decide) (SafeFor.rep _ _ _ _)
  · exact SafeFor.cls _
  · exact SafeFor.lit _ _
  · exact SafeFor.groupOther (by decide) (SafeFor.rep _ _ _ _)
  · exact SafeFor.lit _ _
  · exact safeFor_epBodyShort

theorem safeFor_brackets : SafeFor 4 EpShape reStrategyBrackets := by
  unfold reStrategyBrackets
  apply safeFor_rcat
  intro x hx
  fin_cases hx
  · exact SafeFor.lit _ _
  · exact SafeFor.groupOther (by decide) (SafeFor.rep _ _ _ _)
  · exact SafeFor.lit _ _
  · exact SafeFor.lit _ _
  · exact SafeFor.groupOther (by decide) (SafeFor.rep _ _ _ _)
  · exact SafeFor.lit _ _
  · refine SafeFor.alt (safeFor_rcat _ ?_) SafeFor.eps
    intro y hy
    fin_cases hy
    · exact SafeFor.lit _ _
    · refine SafeFor.groupOther (by decide) ?_
      refine SafeFor.alt (SafeFor.seq (SafeFor.lit _ _) (SafeFor.rep _ _ _ _)) ?_
      refine SafeFor.alt (safeFor_rcat _ ?_) ?_
      · intro z hz
        fin_cases hz
        · exact SafeFor.lit _ _
        · exact SafeFor.rep _ _ _ _
        · exact SafeFor.rep _ _ _ _
      · refine SafeFor.alt (safeFor_rcat _ ?_)
          (SafeFor.seq (SafeFor.rep _ _ _ _) (SafeFor.lit _ _))
        intro z hz
        fin_cases hz
        · exact SafeFor.lit _ _
        · exact SafeFor.rep _ _ _ _
        · exact SafeFor.rep _ _ _ _
    · exact SafeFor.lit _ _
  · exact SafeFor.lit _ _
  · exact safeFor_epBodyShort
  · exact SafeFor.lit _ _

theorem safeFor_simple : SafeFor 4 EpShape reStrategySimple := by
  unfold reStrategySimple
  apply safeFor_rcat
  intro x hx
  fin_cases hx
  · exact SafeFor.groupOther (by decide) (SafeFor.rep _ _ _ _)
  · exact SafeFor.rep _ _ _ _
  · exact safeFor_epBodyShort
  · exact SafeFor.alt (SafeFor.seq (SafeFor.lit _ _) (SafeFor.cls _))
      SafeFor.eps
  · exact SafeFor.alt (SafeFor.lit _ _) (SafeFor.lit _ _)
  · exact SafeFor.eos

/-- Every episode capture produced by the winning strategy has the bounded
decimal shape `EpShape`. -/
theorem winningCaps_ep_shape {fn : List Char} {caps : Caps}
    (h : winningCaps fn = some caps) :
    ∀ s, getCap 4 caps = some s → EpShape s := by
  have hnil : capsGood 4 EpShape [] := by
    intro s hs
    simp [getCap_nil] at hs
  have hof : ∀ (r : RE), SafeFor 4 EpShape r →
      ∀ (g : List Char → Option Caps),
      (∀ c, g fn = some c → ∃ p' rest' st, st ∈ mres r p' rest' [] ∧ c = st.caps) →
      g fn = some caps → ∀ s, getCap 4 caps = some s → EpShape s := by
    intro r hsafe g hg hgc
    obtain ⟨p', rest', st, hst, rfl⟩ := hg caps hgc
    exact mres_caps_good r p' rest' [] hsafe hnil st hst
  unfold winningCaps strategies at h
  simp only [List.findSome?] at h
  cases h1 : strategyDash fn with
  | some c =>
    simp only [h1] at h
    cases h
    refine hof reStrategyDash safeFor_dash strategyDash ?_ h1
    intro c hc
    obtain ⟨st, hst, hcs⟩ := reMatchHead_mem hc
    exact ⟨none, fn, st, hst, hcs⟩
  | none =>
    simp only [h1] at h
    cases h2 : strategySE fn with
    | some c =>
      simp only [h2] at h
      cases h
      refine hof reStrategySE safeFor_se strategySE ?_ h2
      intro c hc
      exact reSearch_mem fn none c hc
    | none =>
      simp only [h2] at h
      cases h3 : strategyBrackets fn with
      | some c =>
        simp only [h3] at h
        cases h
        refine hof reStrategyBrackets safeFor_brackets strategyBrackets ?_ h3
        intro c hc
        obtain ⟨st, hst, hcs⟩ := reMatchHead_mem hc
        exact ⟨none, fn, st, hst, hcs⟩
      | none =>
        simp only [h3] at h
        cases h4 : strategySimple fn with
        | some c =>
          simp only [h4] at h
          cases h
          refine hof reStrategySimple safeFor_simple strategySimple ?_ h4
          intro c hc
          exact reSearch_mem fn none c hc
        | none => simp only [h4] at h; cases h

/-! ## Decimal and episode lemmas -/

theorem takeWhile_digits (ds : List Char) (h : ∀ c ∈ ds, isDigitP c = true) :
    ds.takeWhile (fun c => c ≠ '.') = ds := by
  induction ds with
  | nil => rfl
  | cons c cs ih =>
    have hc := digit_ne_dot (h c (by simp))
    simp only [List.takeWhile_cons]
    rw [if_pos (by simp [hc])]
    exact congrArg (c :: ·) (ih (fun x hx => h x (by simp [hx])))

theorem takeWhile_digits_append (ds fs : List Char)
    (h : ∀ c ∈ ds, isDigitP c = true) :
    (ds ++ '.' :: fs).takeWhile (fun c => c ≠ '.') = ds := by
  induction ds with
  | nil => simp
  | cons c cs ih =>
    have hc := digit_ne_dot (h c (by simp))
    simp only [List.cons_append, List.takeWhile_cons]
    rw [if_pos (by simp [hc])]
    exact congrArg (c :: ·) (ih (fun x hx => h x (by simp [hx])))

theorem dropWhile_digits (ds : List Char) (h : ∀ c ∈ ds, isDigitP c = true) :
    ds.dropWhile (fun c => c ≠ '.') = [] := by
  induction ds with
  | nil => rfl
  | cons c cs ih =>
    have hc := digit_ne_dot (h c (by simp))
    simp only [List.dropWhile_cons]
    rw [if_pos (by simp [hc])]
    exact ih (fun x hx => h x (by simp [hx]))

theorem dropWhile_digits_append (ds fs : List Char)
    (h : ∀ c ∈ ds, isDigitP c = true) :
    (ds ++ '.' :: fs).dropWhile (fun c => c ≠ '.') = '.' :: fs := by
  induction ds with
  | nil => simp
  | cons c cs ih =>
    have hc := digit_ne_dot (h c (by simp))
    simp only [List.cons_append, List.dropWhile_cons]
    rw [if_pos (by simp [hc])]
    exact ih (fun x hx => h x (by simp [hx]))

theorem epShape_decimalShape {s : List Char} (h : EpShape s) :
    DecimalShape s := by
  obtain ⟨ds, fs, rfl, hne, hlen, hds, hfs⟩ := h
  rcases hfs with rfl | ⟨d, hd, rfl⟩
  · exact ⟨ds, [], Or.inr ⟨by simp, rfl⟩, hne, hds, by simp⟩
  · exact ⟨ds, [d], Or.inl rfl, hne, hds, by simpa using hd⟩

theorem epShape_episode_le {s : List Char} (h : EpShape s) :
    episodeNat (some s) ≤ 9999 := by
  obtain ⟨ds, fs, rfl, hne, hlen, hds, hfs⟩ := h
  have hip : decimalIntPart (ds ++ fs) = ds := by
    rcases hfs with rfl | ⟨d, _, rfl⟩
    · rw [List.append_nil]
      exact takeWhile_digits ds hds
    · exact takeWhile_digits_append ds [d] hds
  have hnonempty : (ds ++ fs).isEmpty = false := by
    cases ds with
    | nil => exact absurd rfl hne
    | cons c cs => rfl
  have hv : natOfDigits ds < 10 ^ ds.length := natOfDigits_lt ds hds
  have hpow : (10 : Nat) ^ ds.length ≤ 10 ^ 4 :=
    Nat.pow_le_pow_right (by omega) hlen
  simp [episodeNat, hnonempty, hip]
  omega

theorem decimalShape_floor {s : List Char} (h : DecimalShape s) :
    (episodeNat (some s) : ℤ) = ⌊decimalValQ s⌋ := by
  obtain ⟨ds, fs, hcase, hne, hds, hfs⟩ := h
  have hnatlt : natOfDigits fs < 10 ^ fs.length := natOfDigits_lt fs hfs
  rcases hcase with rfl | ⟨rfl, rfl⟩
  · have hip := takeWhile_digits_append ds fs hds
    have hfp := dropWhile_digits_append ds fs hds
    have hnonempty : (ds ++ '.' :: fs).isEmpty = false := by
      cases ds with
      | nil => exact absurd rfl hne
      | cons c cs => rfl
    have hval : decimalValQ (ds ++ '.' :: fs) =
        (natOfDigits ds : ℚ) + (natOfDigits fs : ℚ) / (10 : ℚ) ^ fs.length := by
      unfold decimalValQ
      rw [hip, hfp]
      simp
    rw [hval]
    simp only [episodeNat, hnonempty, Bool.false_eq_true, if_false,
      decimalIntPart, hip]
    symm
    rw [Int.floor_eq_iff]
    constructor
    · push_cast
      have : (0 : ℚ) ≤ (natOfDigits fs : ℚ) / (10 : ℚ) ^ fs.length := by
        positivity
      linarith
    · push_cast
      have : (natOfDigits fs : ℚ) / (10 : ℚ) ^ fs.length < 1 := by
        rw [div_lt_one (by positivity)]
        exact_mod_cast hnatlt
      linarith
  · have hip := takeWhile_digits s hds
    have hfp := dropWhile_digits s hds
    have hnonempty : s.isEmpty = false := by
      cases s with
      | nil => exact absurd rfl hne
      | cons c cs => rfl
    have hval : decimalValQ s = (natOfDigits s : ℚ) := by
      unfold decimalValQ
      rw [hip, hfp]
      simp [natOfDigits]
    rw [hval]
    simp only [episodeNat, hnonempty, Bool.false_eq_true, if_false,
      decimalIntPart, hip]
    symm
    rw [Int.floor_eq_iff]
    constructor
    · push_cast; linarith
    · push_cast; linarith

/-! ## Cleaning-identity lemmas -/

theorem mres_cleanSeason_nonspace (p : Option Char) (c : Char)
    (cs : List Char) (caps : Caps) (h : isSpaceP c = false) :
    mres reCleanSeason p (c :: cs) caps = [] := by
  simp [reCleanSeason, rcat, mres, runLen, h, repCounts, capHi]

theorem mres_year_nonspace (p : Option Char) (c : Char)
    (cs : List Char) (caps : Caps) (h : isSpaceP c = false) :
    mres reYear p (c :: cs) caps = [] := by
  simp [reYear, rcat, mres, h]

theorem reSubAllF_id (r : RE)
    (hr : ∀ p c cs, isSpaceP c = false → mres r p (c :: cs) [] = []) :
    ∀ (fuel : Nat) (p : Option Char) (t : List Char),
      (∀ c ∈ t, isSpaceP c = false) → reSubAllF fuel r p t = t := by
  intro fuel
  induction fuel with
  | zero => intro p t _; rfl
  | succ n ih =>
    intro p t ht
    cases t with
    | nil => rfl
    | cons x xs =>
      have hx := ht x (by simp)
      rw [reSubAllF, hr p x xs hx]
      exact congrArg (x :: ·) (ih (some x) xs (fun c hc => ht c (by simp [hc])))

theorem reSubAll_id (r : RE)
    (hr : ∀ p c cs, isSpaceP c = false → mres r p (c :: cs) [] = [])
    (p : Option Char) (t : List Char) (ht : ∀ c ∈ t, isSpaceP c = false) :
    reSubAll r p t = t :=
  reSubAllF_id r hr t.length p t ht

theorem subLeading_id (t : List Char) (h : t.head? ≠ some '[') :
    subLeading reLeadBracket t = t := by
  cases t with
  | nil => rfl
  | cons c cs =>
    have hc : ¬ (('[' : Char) = c) := by
      intro e
      exact h (by rw [← e]; rfl)
    simp [subLeading, reLeadBracket, rcat, mres, litMatch, hc]

theorem dropWhile_id_of_false {p : Char → Bool} (t : List Char)
    (h : ∀ c ∈ t, p c = false) : t.dropWhile p = t := by
  cases t with
  | nil => rfl
  | cons c cs => simp [List.dropWhile_cons, h c (by simp)]

theorem pyStrip_id (t : List Char) (h : ∀ c ∈ t, isSpaceP c = false) :
    pyStrip t = t := by
  unfold pyStrip
  rw [dropWhile_id_of_false t h,
    dropWhile_id_of_false t.reverse (fun c hc => h c (List.mem_reverse.mp hc)),
    List.reverse_reverse]

theorem underscoreStep_id (t : List Char) (h : t.contains '_' = false) :
    underscoreStep t = t := by
  unfold underscoreStep
  rw [if_neg (by rw [h]; exact Bool.false_ne_true)]

/-! ## Claim theorems -/

/-- Claim C1, counterexample: on `"[Group] Title - S0 - 05"` the dash
strategy's `season` group captures the digit string `'0'`, which is truthy
in Python, so `parse` returns a record whose `season` field is 0 — the
claimed invariant `season ≥ 1` fails. -/
theorem season_zero_on_explicit_S0 :
    parse "[Group] Title - S0 - 05" =
      some { title := "Title", season := 0, episode := 5,
             raw_filename := "[Group] Title - S0 - 05" } := by rfl

/-- Claim C1 (amended): the returned season is at least 1 unless a strategy
explicitly captured a zero season: whenever a truthy `season` capture parses
to a nonzero number and, failing that, a truthy `season_raw` capture's first
digit run parses to a nonzero number, the resolved season is `≥ 1` (the
text-mining fallback can never produce 0 because a mined 0 is falsy and is
discarded). -/
theorem season_ge_one_unless_zero_capture (sd : StratData)
    (h1 : optTruthy sd.season = true → natOfDigits (sd.season.getD []) ≠ 0)
    (h2 : optTruthy sd.season = false → optTruthy sd.season_raw = true →
      (firstDigitRun (lowerAll (sd.season_raw.getD []))).map natOfDigits ≠
        some 0) :
    1 ≤ resolveSeason sd := by
  show 1 ≤ (if seasonFromCaptures sd = 1 then
      match extractSeasonFromText (rawTitleOf sd) with
      | some n => if n ≠ 0 then n else seasonFromCaptures sd
      | none => seasonFromCaptures sd
    else seasonFromCaptures sd)
  by_cases hs : seasonFromCaptures sd = 1
  · rw [if_pos hs, hs]
    cases hx : extractSeasonFromText (rawTitleOf sd) with
    | none => exact Nat.le_refl 1
    | some n =>
      show 1 ≤ if n ≠ 0 then n else 1
      by_cases hn : n = 0
      · rw [if_neg (by simp [hn])]
      · rw [if_pos hn]
        omega
  · rw [if_neg hs]
    suffices h : seasonFromCaptures sd ≠ 0 by omega
    unfold seasonFromCaptures
    by_cases ht : optTruthy sd.season = true
    · rw [if_pos ht]
      exact h1 ht
    · rw [if_neg ht]
      by_cases hr : optTruthy sd.season_raw = true
      · rw [if_pos hr]
        cases hfd : firstDigitRun (lowerAll (sd.season_raw.getD [])) with
        | none => exact one_ne_zero
        | some ds =>
          have hne := h2 (Bool.eq_false_iff.mpr ht) hr
          rw [hfd] at hne
          simp only [Option.map_some'] at hne
          show natOfDigits ds ≠ 0
          intro he
          exact hne (by rw [he])
      · rw [if_neg hr]
        exact one_ne_zero

/-- Claim C1 witness: a dash capture of season `'2'` satisfies both
hypotheses and resolves to a season `≥ 1`. -/
theorem season_ge_one_unless_zero_capture_witness :
    1 ≤ resolveSeason ⟨some "Foo".data, some ['2'], none, some ['0', '5']⟩ :=
  season_ge_one_unless_zero_capture _ (by decide) (by decide)

/-- Claim C2 (confirmed): `parse` is exactly the first-hit chain over the
four strategies in the fixed order dash, SxxExx, brackets, simple — the
first strategy whose pattern matches the preprocessed filename supplies the
captures that `buildMeta` turns into the record, and `List.findSome?` never
consults a later strategy once one has returned a match. -/
theorem strategy_order_first_match_wins (f : String) :
    parse f = (List.findSome? (fun strat => strat (preprocess f.data))
      [strategyDash, strategySE, strategyBrackets, strategySimple]).map
      (buildMeta (preprocess f.data)) :=
  parse_eq_chain f

/-- Claim C3 (confirmed): `parse` (a total Lean function, so in particular
it never raises) returns `none` exactly when all four strategies fail on
the preprocessed filename; a record is built only from a successful match,
never partially. -/
theorem parse_none_iff_all_strategies_fail (f : String) :
    parse f = none ↔
      (strategyDash (preprocess f.data) = none ∧
       strategySE (preprocess f.data) = none ∧
       strategyBrackets (preprocess f.data) = none ∧
       strategySimple (preprocess f.data) = none) := by
  rw [parse_eq_chain f]
  unfold winningCaps strategies
  cases h1 : strategyDash (preprocess f.data) <;>
    cases h2 : strategySE (preprocess f.data) <;>
      cases h3 : strategyBrackets (preprocess f.data) <;>
        cases h4 : strategySimple (preprocess f.data) <;>
          simp [List.findSome?, h1, h2, h3, h4]

/-- Claim C4, counterexample: on `"One Piece Season 3 (2025) - 1089"` the
engine returns `none`, not the record claimed by the spec (the dash pattern
requires a `]`, SxxExx requires `S<d>E<d>`, brackets requires a leading `[`,
simple requires a `.mp4`/`.mkv` suffix — none is present). -/
theorem one_piece_example_returns_none :
    parse "One Piece Season 3 (2025) - 1089" = none := by rfl

/-- Claim C4 (amended): `parse "One Piece Season 3 (2025) - 1089"` is a
no-match: each of the four strategies fails on that input, so the engine
reports `none` rather than any record. -/
theorem one_piece_example_no_strategy_matches :
    strategyDash (preprocess "One Piece Season 3 (2025) - 1089".data) = none ∧
    strategySE (preprocess "One Piece Season 3 (2025) - 1089".data) = none ∧
    strategyBrackets (preprocess "One Piece Season 3 (2025) - 1089".data) = none ∧
    strategySimple (preprocess "One Piece Season 3 (2025) - 1089".data) = none ∧
    parse "One Piece Season 3 (2025) - 1089" = none := by
  refine ⟨?_, ?_, ?_, ?_, ?_⟩ <;> rfl

/-- Claim C5 (confirmed): whenever the capture-based season equals exactly 1
(in particular when a strategy explicitly captured `'1'`) and text-mining of
the stripped raw title yields a truthy value `n`, the resolved season is the
mined `n`, overwriting the explicit capture; concretely,
`"[G] Foo Season 3 - S1 - 05"` (dash capture `S1`, title text `Season 3`)
parses to season 3. -/
theorem season_one_triggers_text_mining :
    (∀ (sd : StratData) (n : Nat),
      optTruthy sd.season = true →
      natOfDigits (sd.season.getD []) = 1 →
      extractSeasonFromText (rawTitleOf sd) = some n →
      n ≠ 0 →
      resolveSeason sd = n) ∧
    parse "[G] Foo Season 3 - S1 - 05" =
      some { title := "Foo", season := 3, episode := 5,
             raw_filename := "[G] Foo Season 3 - S1 - 05" } := by
  constructor
  · intro sd n h1 h2 h3 h4
    have hs : seasonFromCaptures sd = 1 := by
      unfold seasonFromCaptures
      rw [if_pos h1, h2]
    unfold resolveSeason
    simp [hs, h3, h4]
  · rfl

/-- Claim C5 witness: the dash captures of `"[G] Foo Season 3 - S1 - 05"`
(season `'1'`, raw title `Foo Season 3`) resolve to the mined season 3. -/
theorem season_one_triggers_text_mining_witness :
    resolveSeason ⟨some "Foo Season 3".data, some ['1'], none,
      some ['0', '5']⟩ = 3 :=
  season_one_triggers_text_mining.1 _ 3 (by decide) (by decide)
    (by rfl) (by decide)

/-- Claim C6 (confirmed): the episode resolution of `parse` parses the raw
capture as a decimal number and truncates toward zero — on every
decimal-shaped capture `episodeNat` equals the floor of the exact rational
value (`'12.5'` yields 12), a missing capture yields 0, and every record's
episode field is exactly `episodeNat` of the winning match's episode
capture. -/
theorem episode_truncation_and_default :
    (∀ s : List Char, DecimalShape s →
      (episodeNat (some s) : ℤ) = ⌊decimalValQ s⌋) ∧
    episodeNat (some "12.5".data) = 12 ∧
    episodeNat none = 0 ∧
    (∀ (f : String) (m : AnimeMeta), parse f = some m →
      some m.episode = (winningCaps (preprocess f.data)).map
        (fun caps => episodeNat (getCap 4 caps))) := by
  refine ⟨fun s h => decimalShape_floor h, by rfl, rfl, ?_⟩
  intro f m hm
  rw [parse_eq_chain f] at hm
  obtain ⟨caps, hw, hb⟩ := Option.map_eq_some'.mp hm
  rw [hw]
  subst hb
  rfl

/-- Claim C6 witness: `'12.5'` is decimal-shaped and truncates to 12, and
for `"[G] Foo - 12.5"` the record's episode 12 is `episodeNat` of the
winning capture. -/
theorem episode_truncation_and_default_witness :
    ((episodeNat (some "12.5".data) : ℤ) = ⌊decimalValQ "12.5".data⌋) ∧
    some (12 : Nat) = (winningCaps (preprocess "[G] Foo - 12.5".data)).map
      (fun caps => episodeNat (getCap 4 caps)) := by
  constructor
  · exact episode_truncation_and_default.1 _
      ⟨['1', '2'], ['5'], Or.inl rfl, by decide, by decide, by decide⟩
  · exact episode_truncation_and_default.2.2.2 "[G] Foo - 12.5"
      { title := "Foo", season := 1, episode := 12,
        raw_filename := "[G] Foo - 12.5" } (by rfl)

/-- Claim C7, counterexample: on `"[G] Season 3 - 05"` the raw title is
`"Season 3"`; the season-phrase cleaning pattern requires a preceding
whitespace character, so the phrase at position 0 survives and the returned
title still contains the recognized season phrase `Season 3`. -/
theorem title_retains_season_phrase :
    parse "[G] Season 3 - 05" =
      some { title := "Season 3", season := 3, episode := 5,
             raw_filename := "[G] Season 3 - 05" } := by rfl

/-- Claim C7 (amended): `_clean_title` removes one leading bracketed
segment, whitespace-preceded season/part phrases, and whitespace-preceded
parenthesized years only; consequently it is the identity on any raw title
that contains no whitespace and no underscore and does not start with `[`,
and in general phrases not preceded by whitespace (like a season phrase at
position 0) are retained. -/
theorem clean_title_id_no_whitespace (t : List Char)
    (h1 : ∀ c ∈ t, isSpaceP c = false) (h2 : t.contains '_' = false)
    (h3 : t.head? ≠ some '[') : cleanTitle t = t := by
  show pyStrip (underscoreStep (reSubAll reYear none
    (reSubAll reCleanSeason none (subLeading reLeadBracket t)))) = t
  rw [subLeading_id t h3,
    reSubAll_id reCleanSeason
      (fun p c cs h => mres_cleanSeason_nonspace p c cs [] h) none t h1,
    reSubAll_id reYear
      (fun p c cs h => mres_year_nonspace p c cs [] h) none t h1,
    underscoreStep_id t h2, pyStrip_id t h1]

/-- Claim C7 witness: a plain one-word title is returned unchanged. -/
theorem clean_title_id_no_whitespace_witness :
    cleanTitle "Frieren".data = "Frieren".data :=
  clean_title_id_no_whitespace _ (by decide) (by decide) (by decide)

/-- Claim C8, counterexample: on `"[G][ ][05]"` the brackets strategy
captures the all-whitespace title `" "`, which strips to the empty string,
and `parse` returns a record whose title is `""` — the claimed invariant
that the title is non-empty fails. -/
theorem whitespace_title_gives_empty_title :
    (parse "[G][ ][05]").map AnimeMeta.title = some "" := by rfl

/-- Claim C8 (amended): a match whose captured title is all whitespace
still produces a record, with an empty title (the engine never rejects a
match it found; emptiness of the title is left to downstream code). -/
theorem empty_title_record_still_returned :
    parse "[G][ ][05]" =
      some { title := "", season := 1, episode := 5,
             raw_filename := "[G][ ][05]" } := by rfl

/-- Claim C9, counterexample: `raw_filename` is assigned only after the
full-width brackets have been normalized, so for the input
`"【G】 Foo - 05"` the stored `raw_filename` is `"[G] Foo - 05"`, which
differs from the original input string. -/
theorem raw_filename_not_original_on_fullwidth :
    (parse "【G】 Foo - 05").map AnimeMeta.raw_filename =
      some "[G] Foo - 05" ∧
    ("[G] Foo - 05" : String) ≠ "【G】 Foo - 05" :=
  ⟨by rfl, by decide⟩

/-- Claim C9 (amended): for every input on which `parse` returns a record,
`raw_filename` equals the bracket-normalized (preprocessed) input, and it
equals the original input exactly on inputs containing no full-width
bracket. -/
theorem raw_filename_eq_preprocessed (f : String) (m : AnimeMeta)
    (h : parse f = some m) :
    m.raw_filename = String.mk (preprocess f.data) ∧
    ((∀ c ∈ f.data, c ≠ '【' ∧ c ≠ '】') → m.raw_filename = f) := by
  rw [parse_eq_chain f] at h
  obtain ⟨caps, hw, hb⟩ := Option.map_eq_some'.mp h
  subst hb
  refine ⟨rfl, fun hasc => ?_⟩
  show String.mk (preprocess f.data) = f
  rw [preprocess_id f.data hasc]

/-- Claim C9 witness: on an ASCII-bracket input the stored filename is the
preprocessed input. -/
theorem raw_filename_eq_preprocessed_witness :
    (⟨"Foo", 1, 5, "[G] Foo - 05"⟩ : AnimeMeta).raw_filename =
      String.mk (preprocess "[G] Foo - 05".data) :=
  (raw_filename_eq_preprocessed "[G] Foo - 05" _ (by rfl)).1

/-- Claim C10 (confirmed): every episode capture is a run of at most four
digits (dash strategy) or at most three digits (all other strategies),
optionally followed by a single fractional digit that truncation discards,
so every returned record's episode field is at most 9999. -/
theorem episode_at_most_9999 (f : String) (m : AnimeMeta)
    (h : parse f = some m) : m.episode ≤ 9999 := by
  rw [parse_eq_chain f] at h
  obtain ⟨caps, hw, hb⟩ := Option.map_eq_some'.mp h
  subst hb
  show episodeNat (getCap 4 caps) ≤ 9999
  cases hg : getCap 4 caps with
  | none => simp [episodeNat]
  | some s => exact epShape_episode_le (winningCaps_ep_shape hw s hg)

/-- Claim C10 witness: the record parsed from `"[G] Foo - 12"` has episode
`12 ≤ 9999`. -/
theorem episode_at_most_9999_witness :
    (⟨"Foo", 1, 12, "[G] Foo - 12"⟩ : AnimeMeta).episode ≤ 9999 :=
  episode_at_most_9999 "[G] Foo - 12" _ (by rfl)

end PyVideoScraper
